import Mathlib

/-!
Verification development for a minimal reactive state container ("mini-jotai").

The store keeps three tables:
* `atomStateMap` — cell id ↦ last computed state (value + recorded dependencies),
* `mountedMap`   — cell id ↦ mount record (listener set + dependents set),
* `pendingMap`   — cells whose state was replaced since the last flush, paired
  with the state they had before the first replacement.

Cell read functions and write functions are embedded as expression trees
(`ReadExpr`, `WriteExpr`) interpreted against the store; the interpreters
carry explicit fuel and return `Except Err`, and additionally log events
(`Ev.readRun a` whenever cell `a`'s read function is actually evaluated,
`Ev.forced a` whenever write propagation force-recomputes `a`).
-/

namespace MiniJotai

abbrev AtomId := Nat

/-- A cached cell state: the recorded dependencies (dependency cell ↦ the value
it had when read, or `none` when it was unresolved and only supplied its
initial value) together with the produced value.  Mirrors `AtomState {d; v}`. -/
structure AtomState where
  d : List (AtomId × Option Nat)
  v : Nat
deriving DecidableEq, Repr

/-- A mount record: listener ids and dependent cell ids, in insertion order
(JS `Set`).  Mirrors `Mounted {l; t}`. -/
structure Mounted where
  l : List Nat
  t : List AtomId
deriving DecidableEq, Repr

/-- The three store-wide tables.  JS `Map` preserves insertion order, which is
observable through `pendingMap` iteration during a flush, so all three are
association lists. -/
structure Store where
  atomStateMap : List (AtomId × AtomState)
  mountedMap : List (AtomId × Mounted)
  pendingMap : List (AtomId × Option AtomState)
deriving DecidableEq, Repr

/-- `Map.set` semantics: overwrite in place when the key exists, else append. -/
def mapSet {β : Type} : List (AtomId × β) → AtomId → β → List (AtomId × β)
  | [], k, v => [(k, v)]
  | (k', v') :: rest, k, v =>
      if k' = k then (k, v) :: rest else (k', v') :: mapSet rest k v

/-- `Map.get` semantics. -/
def mapGet {β : Type} : List (AtomId × β) → AtomId → Option β
  | [], _ => none
  | (k', v') :: rest, k => if k' = k then some v' else mapGet rest k

/-- `Map.has` semantics. -/
def mapHas {β : Type} (m : List (AtomId × β)) (k : AtomId) : Bool :=
  (mapGet m k).isSome

/-- `Map.delete` semantics. -/
def mapDelete {β : Type} : List (AtomId × β) → AtomId → List (AtomId × β)
  | [], _ => []
  | (k', v') :: rest, k =>
      if k' = k then rest else (k', v') :: mapDelete rest k

/-- `Set.add` semantics: no-op when the element is already present, else
append (JS `Set` keeps first-insertion order). -/
def setAdd (s : List Nat) (x : Nat) : List Nat :=
  if x ∈ s then s else s ++ [x]

/-- `Set.delete` semantics (elements are unique, so erasing the first
occurrence suffices). -/
def setDelete (s : List Nat) (x : Nat) : List Nat :=
  s.erase x

/-- `isEqualAtomValue`: both states carry a value, compared with `Object.is`
(values are numbers here, so `Object.is` is plain equality). -/
def isEqualAtomValue (a b : AtomState) : Bool :=
  a.v = b.v

/-- A cell's read function, deep-embedded: either return a value or read a
cell and continue with its value. -/
inductive ReadExpr where
  | ret (v : Nat)
  | get (a : AtomId) (k : Nat → ReadExpr)

/-- An argument of a `set` call: a plain value or an updater function
(`SetStateAction`). -/
inductive WArg where
  | value (v : Nat)
  | updater (f : Nat → Nat)

/-- A cell's write function body: return a result, read a cell, or invoke the
setter on a cell with arguments (the continuation receives the setter's
result; `none` models `undefined`). -/
inductive WriteExpr where
  | ret (r : Option Nat)
  | get (a : AtomId) (k : Nat → WriteExpr)
  | set (a : AtomId) (args : List WArg) (k : Option Nat → WriteExpr)

/-- A cell definition: optional initial value (`init` is present exactly for
primitive cells), the read function, and the optional write function. -/
structure AtomDef where
  init : Option Nat
  read : ReadExpr
  write : Option (List WArg → WriteExpr)

/-- `hasInitialValue`: `"init" in atom`. -/
def hasInitialValue (env : AtomId → AtomDef) (a : AtomId) : Bool :=
  (env a).init.isSome

/-- The cell produced by the factory `atom(initialValue)`: `init` is the
initial value, `read` is `get => get(config)` (a self-read), and `write`
applies an updater argument to the current value (read through the getter)
before forwarding a plain value to the setter on itself. -/
def primitiveAtom (self : AtomId) (i : Nat) : AtomDef :=
  { init := some i
  , read := .get self .ret
  , write := some (fun args =>
      match args.head? with
      | some (.value v) => .set self [.value v] .ret
      | some (.updater f) =>
          .get self (fun cur => .set self [.value (f cur)] .ret)
      | none => .set self [] .ret) }

/-- A read-only derived cell built from a read function. -/
def derivedAtom (r : ReadExpr) : AtomDef :=
  { init := none, read := r, write := none }

/-- Errors: `noAtomInit` is the thrown `"no atom init"`; `outOfFuel` models
divergence (unbounded recursion); `badSetArg` marks a setter invocation whose
first argument is not a plain value (outside the modelled uses);
`noWriter` marks writing a cell without a write function. -/
inductive Err where
  | noAtomInit
  | outOfFuel
  | badSetArg
  | noWriter
deriving DecidableEq, Repr

/-- Logged events: `readRun a` records an actual evaluation of `a`'s read
function; `forced a` records a forced recomputation of `a` during write
propagation. -/
inductive Ev where
  | readRun (a : AtomId)
  | forced (a : AtomId)
deriving DecidableEq, Repr

instance instDecEqExcept {ε α : Type} [DecidableEq ε] [DecidableEq α] :
    DecidableEq (Except ε α) := fun x y =>
  match x, y with
  | .error a, .error b =>
      if h : a = b then isTrue (by rw [h])
      else isFalse (fun hc => h (Except.error.inj hc))
  | .error _, .ok _ => isFalse (fun hc => Except.noConfusion hc)
  | .ok _, .error _ => isFalse (fun hc => Except.noConfusion hc)
  | .ok a, .ok b =>
      if h : a = b then isTrue (by rw [h])
      else isFalse (fun hc => h (Except.ok.inj hc))

/-- `getAtomState`. -/
def getAtomState (σ : Store) (a : AtomId) : Option AtomState :=
  mapGet σ.atomStateMap a

/-- `setAtomState`: install the new state, and record the previous state in
`pendingMap` unless the cell is already pending (so the recorded entry is the
state at the cell's first change within the transaction). -/
def setAtomState (σ : Store) (a : AtomId) (s : AtomState) : Store :=
  let prev := mapGet σ.atomStateMap a
  { atomStateMap := mapSet σ.atomStateMap a s
  , mountedMap := σ.mountedMap
  , pendingMap :=
      if mapHas σ.pendingMap a then σ.pendingMap
      else σ.pendingMap ++ [(a, prev)] }

/-- `setAtomValue`: build the candidate next state; when a previous state
exists with an `Object.is`-equal value, keep the previous state object and
leave the store untouched, else install the next state. -/
def setAtomValue (σ : Store) (a : AtomId) (v : Nat)
    (nextDependencies : Option (List (AtomId × Option Nat))) :
    AtomState × Store :=
  let nextAtomState : AtomState := { d := nextDependencies.getD [], v := v }
  match getAtomState σ a with
  | some prev =>
      if isEqualAtomValue prev nextAtomState then (prev, σ)
      else (nextAtomState, setAtomState σ a nextAtomState)
  | none => (nextAtomState, setAtomState σ a nextAtomState)

mutual

/-- `readAtomState`: return the cached state unless absent or `force`;
otherwise evaluate the read function with the dependency-recording getter
and install the produced value. -/
def readAtomState (env : AtomId → AtomDef) :
    Nat → Store → AtomId → Bool → Except Err (AtomState × Store × List Ev)
  | 0, _, _, _ => .error .outOfFuel
  | fuel + 1, σ, a, force =>
      match getAtomState σ a, force with
      | some st, false => .ok (st, σ, [])
      | _, _ =>
          match runRead env fuel σ a (env a).read [] with
          | .error e => .error e
          | .ok (v, nd, σ', ev) =>
              .ok ((setAtomValue σ' a v (some nd)).1,
                   (setAtomValue σ' a v (some nd)).2, Ev.readRun a :: ev)

/-- The getter supplied to a read function, as a loop over the read body.
A self-read returns the cached value (recording the cached state) or the
declared initial value (recording "unresolved"), and throws `noAtomInit`
when neither exists; any other read recursively resolves the cell and
records the resulting state. -/
def runRead (env : AtomId → AtomDef) :
    Nat → Store → AtomId → ReadExpr → List (AtomId × Option Nat) →
    Except Err (Nat × List (AtomId × Option Nat) × Store × List Ev)
  | 0, _, _, _, _ => .error .outOfFuel
  | fuel + 1, σ, self, e, nd =>
      match e with
      | .ret v => .ok (v, nd, σ, [])
      | .get b k =>
          if b = self then
            match getAtomState σ b with
            | some ast =>
                runRead env fuel σ self (k ast.v) (mapSet nd b (some ast.v))
            | none =>
                match (env b).init with
                | some i => runRead env fuel σ self (k i) (mapSet nd b none)
                | none => .error .noAtomInit
          else
            match readAtomState env fuel σ b false with
            | .error e' => .error e'
            | .ok (ast, σ', ev₁) =>
                match runRead env fuel σ' self (k ast.v)
                    (mapSet nd b (some ast.v)) with
                | .error e' => .error e'
                | .ok (v, nd', σ'', ev₂) => .ok (v, nd', σ'', ev₁ ++ ev₂)

end

/-- The dependents recorded in a cell's mount record (`new Set(mounted?.t)`);
empty when the cell is not mounted. -/
def tOf (σ : Store) (a : AtomId) : List AtomId :=
  match mapGet σ.mountedMap a with
  | some m => m.t
  | none => []

mutual

/-- `recomputeDependents`: walk the mount table's dependents of `a`,
depth-first. -/
def recomputeDependents (env : AtomId → AtomDef) :
    Nat → Store → AtomId → Except Err (Store × List Ev)
  | 0, _, _ => .error .outOfFuel
  | fuel + 1, σ, a => recomputeList env fuel σ (tOf σ a) a

/-- One `forEach` pass of `recomputeDependents`: each dependent other than
the parent is force-recomputed (its read re-run, cache ignored), and the
walk recurses into every dependent's own dependents regardless of whether
anything changed. -/
def recomputeList (env : AtomId → AtomDef) :
    Nat → Store → List AtomId → AtomId → Except Err (Store × List Ev)
  | 0, _, _, _ => .error .outOfFuel
  | _ + 1, σ, [], _ => .ok (σ, [])
  | fuel + 1, σ, d :: rest, parent =>
      if d = parent then
        match recomputeList env fuel σ (tOf σ d) d with
        | .error e => .error e
        | .ok (σ₂, evB) =>
            match recomputeList env fuel σ₂ rest parent with
            | .error e => .error e
            | .ok (σ₃, evC) => .ok (σ₃, evB ++ evC)
      else
        match readAtomState env fuel σ d true with
        | .error e => .error e
        | .ok (_, σ₁, ev₁) =>
            match recomputeList env fuel σ₁ (tOf σ₁ d) d with
            | .error e => .error e
            | .ok (σ₂, evB) =>
                match recomputeList env fuel σ₂ rest parent with
                | .error e => .error e
                | .ok (σ₃, evC) => .ok (σ₃, (Ev.forced d :: ev₁) ++ evB ++ evC)

end

mutual

/-- `writeAtomState`: run the cell's write function against the write-path
getter and setter. -/
def writeAtomState (env : AtomId → AtomDef) :
    Nat → Store → AtomId → List WArg →
    Except Err (Option Nat × Store × List Ev)
  | 0, _, _, _ => .error .outOfFuel
  | fuel + 1, σ, a, args =>
      match (env a).write with
      | none => .error .noWriter
      | some w => runWrite env fuel σ a (w args)

/-- The write function body interpreter.  `get` resolves through
`readAtomState`; `set` on the cell currently being written at the top level
installs the first argument as the new value and triggers dependent
recomputation exactly when the value actually changed, while `set` on any
other cell recurses into a full nested write. -/
def runWrite (env : AtomId → AtomDef) :
    Nat → Store → AtomId → WriteExpr →
    Except Err (Option Nat × Store × List Ev)
  | 0, _, _, _ => .error .outOfFuel
  | fuel + 1, σ, top, e =>
      match e with
      | .ret r => .ok (r, σ, [])
      | .get b k =>
          match readAtomState env fuel σ b false with
          | .error e' => .error e'
          | .ok (ast, σ', ev₁) =>
              match runWrite env fuel σ' top (k ast.v) with
              | .error e' => .error e'
              | .ok (r, σ'', ev₂) => .ok (r, σ'', ev₁ ++ ev₂)
      | .set b args k =>
          if b = top then
            match args.head? with
            | some (.value v) =>
                let changed : Bool :=
                  match getAtomState σ b with
                  | none => true
                  | some p => ! isEqualAtomValue p (setAtomValue σ b v none).1
                if changed then
                  match recomputeDependents env fuel (setAtomValue σ b v none).2 b with
                  | .error e' => .error e'
                  | .ok (σ₂, ev₁) =>
                      match runWrite env fuel σ₂ top (k none) with
                      | .error e' => .error e'
                      | .ok (r, σ₃, ev₂) => .ok (r, σ₃, ev₁ ++ ev₂)
                else
                  runWrite env fuel (setAtomValue σ b v none).2 top (k none)
            | _ => .error .badSetArg
          else
            match writeAtomState env fuel σ b args with
            | .error e' => .error e'
            | .ok (r₁, σ', ev₁) =>
                match runWrite env fuel σ' top (k r₁) with
                | .error e' => .error e'
                | .ok (r, σ'', ev₂) => .ok (r, σ'', ev₁ ++ ev₂)

end

/-- Fire every listener of one mount record in insertion order, threading the
listener effect through the store. -/
def fireListeners (leff : Nat → Store → Store) :
    List Nat → Store → Store
  | [], σ => σ
  | li :: rest, σ => fireListeners leff rest (leff li σ)

/-- One flush round over a snapshot of the pending entries: a pending cell's
listeners fire exactly when the cell has a mount record, a current state,
and that state is not value-equal to the recorded pre-transaction state. -/
def flushRound (leff : Nat → Store → Store) :
    List (AtomId × Option AtomState) → Store → Store × List Nat
  | [], σ => (σ, [])
  | (a, prevAtomState) :: rest, σ =>
      let fire : Bool :=
        match mapGet σ.mountedMap a, getAtomState σ a with
        | some _, some st =>
            match prevAtomState with
            | some p => ¬ isEqualAtomValue p st
            | none => true
        | _, _ => false
      if fire then
        let ls :=
          match mapGet σ.mountedMap a with
          | some m => m.l
          | none => []
        ((flushRound leff rest (fireListeners leff ls σ)).1,
         ls ++ (flushRound leff rest (fireListeners leff ls σ)).2)
      else flushRound leff rest σ

/-- `flushPending`: drain the pending map in rounds until it is empty; each
round snapshots and clears the map, then processes every entry of the
snapshot (listener effects may re-populate the map for a later round). -/
def flushPending (leff : Nat → Store → Store) :
    Nat → Store → Except Err (Store × List Nat)
  | 0, _ => .error .outOfFuel
  | fuel + 1, σ =>
      if σ.pendingMap = [] then .ok (σ, [])
      else
        let round :=
          flushRound leff σ.pendingMap
            { atomStateMap := σ.atomStateMap
            , mountedMap := σ.mountedMap
            , pendingMap := [] }
        match flushPending leff fuel round.1 with
        | .error e => .error e
        | .ok (σ'', fired') => .ok (σ'', round.2 ++ fired')

/-- `readAtom` (`store.get`): resolve the state and return its value. -/
def readAtom (env : AtomId → AtomDef) (fuel : Nat) (σ : Store) (a : AtomId) :
    Except Err (Nat × Store × List Ev) :=
  match readAtomState env fuel σ a false with
  | .error e => .error e
  | .ok (st, σ', ev) => .ok (st.v, σ', ev)

/-- `writeAtom` (`store.set`): apply the write, then flush pending
notifications; also reports the listeners fired during the flush. -/
def writeAtom (env : AtomId → AtomDef) (leff : Nat → Store → Store)
    (fuel : Nat) (σ : Store) (a : AtomId) (args : List WArg) :
    Except Err (Option Nat × Store × List Ev × List Nat) :=
  match writeAtomState env fuel σ a args with
  | .error e => .error e
  | .ok (r, σ', ev) =>
      match flushPending leff fuel σ' with
      | .error e => .error e
      | .ok (σ'', fired) => .ok (r, σ'', ev, fired)

/-- The dependency cells recorded in a cell's current cached state, in
recording order. -/
def depKeys (σ : Store) (a : AtomId) : List AtomId :=
  match getAtomState σ a with
  | some st => st.d.map (·.1)
  | none => []

mutual

/-- `mountAtom`: mount every dependency recorded in the cell's current cached
state (adding this cell to each dependency's dependents set, recursing with
this cell as the initial dependent when the dependency is unmounted), then
install a fresh mount record whose dependents set holds the initial
dependent, if any. -/
def mountAtom : Nat → Store → AtomId → Option AtomId →
    Except Err (Mounted × Store)
  | 0, _, _, _ => .error .outOfFuel
  | fuel + 1, σ, a, initialDependent =>
      match mountList fuel σ a (depKeys σ a) with
      | .error e => .error e
      | .ok σ₁ =>
          let mounted : Mounted :=
            { t := match initialDependent with
                   | some d => [d]
                   | none => []
            , l := [] }
          .ok (mounted,
            { atomStateMap := σ₁.atomStateMap
            , mountedMap := mapSet σ₁.mountedMap a mounted
            , pendingMap := σ₁.pendingMap })

/-- The `forEach` pass of `mountAtom` over the recorded dependency keys. -/
def mountList : Nat → Store → AtomId → List AtomId → Except Err Store
  | 0, _, _, _ => .error .outOfFuel
  | _ + 1, σ, _, [] => .ok σ
  | fuel + 1, σ, a, b :: rest =>
      match mapGet σ.mountedMap b with
      | some m =>
          let σ' :=
            { atomStateMap := σ.atomStateMap
            , mountedMap := mapSet σ.mountedMap b
                { l := m.l, t := setAdd m.t a }
            , pendingMap := σ.pendingMap }
          mountList fuel σ' a rest
      | none =>
          if b = a then mountList fuel σ a rest
          else
            match mountAtom fuel σ b (some a) with
            | .error e => .error e
            | .ok (_, σ') => mountList fuel σ' a rest

end

/-- `addAtom`: reuse an existing mount record, else mount the cell with no
initial dependent. -/
def addAtom (fuel : Nat) (σ : Store) (a : AtomId) :
    Except Err (Mounted × Store) :=
  match mapGet σ.mountedMap a with
  | some m => .ok (m, σ)
  | none => mountAtom fuel σ a none

/-- `subscribeAtom` (`store.sub`): mount the cell and register the listener
in the mount record's listener set. -/
def subscribeAtom (fuel : Nat) (σ : Store) (a : AtomId) (li : Nat) :
    Except Err Store :=
  match addAtom fuel σ a with
  | .error e => .error e
  | .ok (m, σ') =>
      .ok { atomStateMap := σ'.atomStateMap
          , mountedMap := mapSet σ'.mountedMap a
              { l := setAdd m.l li, t := m.t }
          , pendingMap := σ'.pendingMap }

/-- One step of the unsubscribe cleanup: for a recorded dependency entry of
the unmounted cell `a`, remove `a` from that dependency's dependents set when
present. -/
def unmountStep (a : AtomId) (acc : Store) (p : AtomId × Option Nat) : Store :=
  if p.1 = a then acc
  else
    match mapGet acc.mountedMap p.1 with
    | some m =>
        if a ∈ m.t then
          { atomStateMap := acc.atomStateMap
          , mountedMap := mapSet acc.mountedMap p.1
              { l := m.l, t := setDelete m.t a }
          , pendingMap := acc.pendingMap }
        else acc
    | none => acc

/-- `unmountAtom` (the unsubscribe callback): delete the cell's mount record,
then remove the cell from the dependents set of every dependency recorded in
its current cached state. -/
def unmountAtom (σ : Store) (a : AtomId) : Store :=
  let σ₁ : Store :=
    { atomStateMap := σ.atomStateMap
    , mountedMap := mapDelete σ.mountedMap a
    , pendingMap := σ.pendingMap }
  match getAtomState σ a with
  | none => σ₁
  | some st => st.d.foldl (unmountStep a) σ₁

/-- The empty store. -/
def emptyStore : Store := { atomStateMap := [], mountedMap := [], pendingMap := [] }

/-! ### Concrete scenario environments -/

/-- Filler cell making the environments total. -/
def defAtom : AtomDef := derivedAtom (.ret 0)

/-- Listeners with no store effect. -/
def noEff : Nat → Store → Store := fun _ σ => σ

/-- Cell 0 is the primitive `count` initialized to 0; cell 1 is the derived
`double = count * 2`. -/
def envCD : AtomId → AtomDef := fun a =>
  if a = 0 then primitiveAtom 0 0
  else if a = 1 then derivedAtom (.get 0 (fun c => .ret (2 * c)))
  else defAtom

/-- Conditional-dependency environment: cell 0 is a primitive flag (init 0),
cell 1 is a primitive (init 10), and cell 2 reads the flag and, only when the
flag is non-zero, also reads cell 1. -/
def envFlag : AtomId → AtomDef := fun a =>
  if a = 0 then primitiveAtom 0 0
  else if a = 1 then primitiveAtom 1 10
  else if a = 2 then derivedAtom
    (.get 0 (fun fv => if fv = 0 then .ret 0 else .get 1 (fun pv => .ret pv)))
  else defAtom

/-- Two unrelated primitives: cell 0 (init 0) and cell 1 (init 7). -/
def envTwo : AtomId → AtomDef := fun a =>
  if a = 0 then primitiveAtom 0 0
  else if a = 1 then primitiveAtom 1 7
  else defAtom

/-- The literal count/double scenario: subscribe to `double`, then
`set(count, 5)`; report the listeners fired by the set and the value of a
final `get(double)`. -/
def cdLiteralRun : Except Err (List Nat × Nat) := do
  let σ₁ ← subscribeAtom 20 emptyStore 1 100
  let (_, σ₂, _, fired) ← writeAtom envCD noEff 20 σ₁ 0 [.value 5]
  let (v, _, _) ← readAtom envCD 20 σ₂ 1
  pure (fired, v)

/-- The count/double scenario with an initial `get(double)` before
subscribing. -/
def cdReadFirstRun : Except Err (List Nat × Nat) := do
  let (_, σ₁, _) ← readAtom envCD 20 emptyStore 1
  let σ₂ ← subscribeAtom 20 σ₁ 1 100
  let (_, σ₃, _, fired) ← writeAtom envCD noEff 20 σ₂ 0 [.value 5]
  let (v, _, _) ← readAtom envCD 20 σ₃ 1
  pure (fired, v)

/-- Conditional-dependency run: read cell 2, subscribe to it, flip the flag
(cell 0) to 1 — cell 2 now depends on cell 1 — then set cell 1 to 99. -/
def flagRun : Except Err Store := do
  let (_, σ₁, _) ← readAtom envFlag 20 emptyStore 2
  let σ₂ ← subscribeAtom 20 σ₁ 2 100
  let (_, σ₃, _, _) ← writeAtom envFlag noEff 20 σ₂ 0 [.value 1]
  let (_, σ₄, _, _) ← writeAtom envFlag noEff 20 σ₃ 1 [.value 99]
  pure σ₄

/-- Chain unmount run: read `double`, subscribe to it, then unsubscribe. -/
def unsubRun : Except Err Store := do
  let (_, σ₁, _) ← readAtom envCD 20 emptyStore 1
  let σ₂ ← subscribeAtom 20 σ₁ 1 100
  pure (unmountAtom σ₂ 1)

/-- Frame-effect run: subscribe to cell 1 (unread), `get` it (which installs
its state and leaves it pending), then set the unrelated cell 0. -/
def frameRun : Except Err (List Nat) := do
  let σ₁ ← subscribeAtom 20 emptyStore 1 100
  let (_, σ₂, _) ← readAtom envTwo 20 σ₁ 1
  let (_, _, _, fired) ← writeAtom envTwo noEff 20 σ₂ 0 [.value 1]
  pure fired

/-! ### Basic lemmas about the table operations -/

theorem mapGet_mem_keys {β : Type} :
    ∀ (m : List (AtomId × β)) (k : AtomId) (v : β),
      mapGet m k = some v → k ∈ m.map (·.1) := by
  intro m
  induction m with
  | nil => intro k v h; simp [mapGet] at h
  | cons p rest ih =>
      intro k v h
      obtain ⟨k', v'⟩ := p
      simp only [mapGet] at h
      by_cases hk : k' = k
      · simp [hk]
      · simp only [hk, if_false] at h
        simp [ih k v h]

theorem setAtomState_mountedMap (σ : Store) (a : AtomId) (s : AtomState) :
    (setAtomState σ a s).mountedMap = σ.mountedMap := rfl

theorem setAtomValue_mountedMap (σ : Store) (a : AtomId) (v : Nat)
    (nd : Option (List (AtomId × Option Nat))) :
    (setAtomValue σ a v nd).2.mountedMap = σ.mountedMap := by
  simp only [setAtomValue]
  split
  · split
    · rfl
    · rfl
  · rfl

theorem setAtomState_pending_mem (σ : Store) (a : AtomId) (s : AtomState) :
    a ∈ (setAtomState σ a s).pendingMap.map (·.1) := by
  simp only [setAtomState]
  cases hh : mapHas σ.pendingMap a with
  | true =>
      simp only [hh, if_true]
      unfold mapHas at hh
      cases hg : mapGet σ.pendingMap a with
      | none => rw [hg] at hh; simp at hh
      | some v => exact mapGet_mem_keys _ _ _ hg
  | false => simp [hh]

/-! ### Reads never touch the mount table and never force -/

theorem read_preserves (env : AtomId → AtomDef) : ∀ fuel : Nat,
    (∀ σ a force st σ' ev, readAtomState env fuel σ a force = .ok (st, σ', ev) →
       σ'.mountedMap = σ.mountedMap ∧ ∀ x, Ev.forced x ∉ ev) ∧
    (∀ σ self e nd v nd' σ' ev, runRead env fuel σ self e nd = .ok (v, nd', σ', ev) →
       σ'.mountedMap = σ.mountedMap ∧ ∀ x, Ev.forced x ∉ ev) := by
  intro fuel
  induction fuel with
  | zero =>
      refine ⟨?_, ?_⟩
      · intro σ a force st σ' ev h; simp [readAtomState] at h
      · intro σ self e nd v nd' σ' ev h; simp [runRead] at h
  | succ fuel ih =>
      obtain ⟨ihR, ihE⟩ := ih
      refine ⟨?_, ?_⟩
      · intro σ a force st σ' ev h
        simp only [readAtomState] at h
        split at h
        · cases h
          exact ⟨rfl, by simp⟩
        · split at h
          · exact absurd h (by simp)
          · rename_i v₀ nd₀ σ₀ ev₀ heq
            cases h
            have := ihE _ _ _ _ _ _ _ _ heq
            refine ⟨?_, ?_⟩
            · rw [setAtomValue_mountedMap, this.1]
            · intro x hx
              simp only [List.mem_cons] at hx
              rcases hx with hx | hx
              · cases hx
              · exact this.2 x hx
      · intro σ self e nd v nd' σ' ev h
        simp only [runRead] at h
        split at h
        · cases h; exact ⟨rfl, by simp⟩
        · split at h
          · -- self-read
            split at h
            · exact ihE _ _ _ _ _ _ _ _ h
            · split at h
              · exact ihE _ _ _ _ _ _ _ _ h
              · exact absurd h (by simp)
          · -- dependency read
            split at h
            · exact absurd h (by simp)
            · rename_i ast σ₁ ev₁ heq₁
              split at h
              · exact absurd h (by simp)
              · rename_i v₂ nd₂ σ₂ ev₂ heq₂
                cases h
                have h₁ := ihR _ _ _ _ _ _ heq₁
                have h₂ := ihE _ _ _ _ _ _ _ _ heq₂
                refine ⟨by rw [h₂.1, h₁.1], ?_⟩
                intro x hx
                rcases List.mem_append.mp hx with hx | hx
                · exact h₁.2 x hx
                · exact h₂.2 x hx

theorem readAtomState_mountedMap (env : AtomId → AtomDef) (fuel : Nat)
    (σ : Store) (a : AtomId) (force : Bool) (st : AtomState) (σ' : Store)
    (ev : List Ev) (h : readAtomState env fuel σ a force = .ok (st, σ', ev)) :
    σ'.mountedMap = σ.mountedMap :=
  ((read_preserves env fuel).1 _ _ _ _ _ _ h).1

theorem readAtomState_no_forced (env : AtomId → AtomDef) (fuel : Nat)
    (σ : Store) (a : AtomId) (force : Bool) (st : AtomState) (σ' : Store)
    (ev : List Ev) (h : readAtomState env fuel σ a force = .ok (st, σ', ev)) :
    ∀ x, Ev.forced x ∉ ev :=
  ((read_preserves env fuel).1 _ _ _ _ _ _ h).2

/-- A successful forced read really re-runs the read function: its event log
starts with the read-invocation event. -/
theorem readAtomState_forced_runs (env : AtomId → AtomDef) :
    ∀ (fuel : Nat) (σ : Store) (a : AtomId) (st : AtomState) (σ' : Store)
      (ev : List Ev), readAtomState env fuel σ a true = .ok (st, σ', ev) →
      ∃ ev', ev = Ev.readRun a :: ev' := by
  intro fuel σ a st σ' ev h
  cases fuel with
  | zero => simp [readAtomState] at h
  | succ fuel =>
      simp only [readAtomState] at h
      split at h
      · rename_i heq; exact Bool.noConfusion heq
      · split at h
        · exact absurd h (by simp)
        · cases h
          exact ⟨_, rfl⟩

/-! ### The recompute walk never touches the mount table -/

theorem tOf_congr {σ σ' : Store} (h : σ'.mountedMap = σ.mountedMap) :
    tOf σ' = tOf σ := by
  funext a
  unfold tOf
  rw [h]

theorem recomputeList_mountedMap (env : AtomId → AtomDef) : ∀ (fuel : Nat)
    (σ : Store) (l : List AtomId) (parent : AtomId) (σ' : Store) (ev : List Ev),
    recomputeList env fuel σ l parent = .ok (σ', ev) →
    σ'.mountedMap = σ.mountedMap := by
  intro fuel
  induction fuel with
  | zero => intro σ l parent σ' ev h; simp [recomputeList] at h
  | succ fuel ih =>
      intro σ l parent σ' ev h
      cases l with
      | nil => simp only [recomputeList] at h; cases h; rfl
      | cons d rest =>
          simp only [recomputeList] at h
          by_cases hd : d = parent
          · rw [if_pos hd] at h
            split at h
            · exact Except.noConfusion h
            · rename_i σ₂ evB heqB
              split at h
              · exact Except.noConfusion h
              · rename_i σ₃ evC heqC
                cases h
                exact (ih _ _ _ _ _ heqC).trans (ih _ _ _ _ _ heqB)
          · rw [if_neg hd] at h
            split at h
            · exact Except.noConfusion h
            · rename_i st₁ σ₁ ev₁ heq₁
              split at h
              · exact Except.noConfusion h
              · rename_i σ₂ evB heqB
                split at h
                · exact Except.noConfusion h
                · rename_i σ₃ evC heqC
                  cases h
                  exact ((ih _ _ _ _ _ heqC).trans (ih _ _ _ _ _ heqB)).trans
                    (readAtomState_mountedMap env _ _ _ _ _ _ _ heq₁)

theorem recomputeDependents_mountedMap (env : AtomId → AtomDef) (fuel : Nat)
    (σ : Store) (a : AtomId) (σ' : Store) (ev : List Ev)
    (h : recomputeDependents env fuel σ a = .ok (σ', ev)) :
    σ'.mountedMap = σ.mountedMap := by
  cases fuel with
  | zero => simp [recomputeDependents] at h
  | succ fuel => exact recomputeList_mountedMap env _ _ _ _ _ _ h

/-! ### Mounting never touches the state table or the pending set -/

theorem mount_preserves : ∀ fuel : Nat,
    (∀ σ a d m σ', mountAtom fuel σ a d = .ok (m, σ') →
       σ'.atomStateMap = σ.atomStateMap ∧ σ'.pendingMap = σ.pendingMap) ∧
    (∀ σ a l σ', mountList fuel σ a l = .ok σ' →
       σ'.atomStateMap = σ.atomStateMap ∧ σ'.pendingMap = σ.pendingMap) := by
  intro fuel
  induction fuel with
  | zero =>
      refine ⟨?_, ?_⟩
      · intro σ a d m σ' h; simp [mountAtom] at h
      · intro σ a l σ' h; simp [mountList] at h
  | succ fuel ih =>
      obtain ⟨ihA, ihL⟩ := ih
      refine ⟨?_, ?_⟩
      · intro σ a d m σ' h
        simp only [mountAtom] at h
        split at h
        · exact absurd h (by simp)
        · rename_i σ₁ heq
          cases h
          have h' := ihL _ _ _ _ heq
          exact ⟨h'.1, h'.2⟩
      · intro σ a l σ' h
        cases l with
        | nil => simp only [mountList] at h; cases h; exact ⟨rfl, rfl⟩
        | cons b rest =>
            simp only [mountList] at h
            split at h
            · rename_i m hm
              have := ihL _ _ _ _ h
              exact this
            · split at h
              · exact ihL _ _ _ _ h
              · split at h
                · exact absurd h (by simp)
                · rename_i m₁ σ₁ heq₁
                  have h₁ := ihA _ _ _ _ _ heq₁
                  have h₂ := ihL _ _ _ _ h
                  exact ⟨h₂.1.trans h₁.1, h₂.2.trans h₁.2⟩

theorem addAtom_preserves (fuel : Nat) (σ : Store) (a : AtomId) (m : Mounted)
    (σ' : Store) (h : addAtom fuel σ a = .ok (m, σ')) :
    σ'.atomStateMap = σ.atomStateMap ∧ σ'.pendingMap = σ.pendingMap := by
  simp only [addAtom] at h
  split at h
  · cases h; exact ⟨rfl, rfl⟩
  · exact (mount_preserves fuel).1 _ _ _ _ _ h

theorem subscribeAtom_atomStateMap (fuel : Nat) (σ : Store) (a : AtomId)
    (li : Nat) (σ' : Store) (h : subscribeAtom fuel σ a li = .ok σ') :
    σ'.atomStateMap = σ.atomStateMap ∧ σ'.pendingMap = σ.pendingMap := by
  simp only [subscribeAtom] at h
  split at h
  · exact absurd h (by simp)
  · rename_i m σ₁ heq
    cases h
    have h' := addAtom_preserves fuel σ a m σ₁ heq
    exact ⟨h'.1, h'.2⟩

/-! ### Further concrete probes -/

/-- The store after a single `get` of `double` on the empty store. -/
def cdPrimedStore : Except Err Store :=
  (readAtom envCD 20 emptyStore 1).map (fun x => x.2.1)

/-- Checks that a forced recomputation of `double` whose value did not change
keeps the cached state object and leaves the store (pending set included)
untouched, while still re-running the read function. -/
def forcedRecomputeStable : Bool :=
  match cdPrimedStore with
  | .error _ => false
  | .ok σ =>
      match getAtomState σ 1 with
      | none => false
      | some st =>
          decide (readAtomState envCD 20 σ 1 true = .ok (st, σ, [Ev.readRun 1]))

/-- A store holding only a cached state for cell 0. -/
def oneCellStore : Store :=
  { atomStateMap := [(0, { d := [(0, none)], v := 0 })]
  , mountedMap := [], pendingMap := [] }

/-- An environment whose cell 0 is a derived cell that reads itself — a
construction error (no cached state and no declared initial value). -/
def envBad : AtomId → AtomDef := fun _ => derivedAtom (.get 0 .ret)

/-! ### Claim theorems -/

/-- C5: when a recomputation of a cell produces a value reference-equal
(`Object.is`; plain equality on these numeric values) to the previously
cached one, `setAtomValue` returns the previously cached state object — the
newly built state, its dependency map included, is discarded — and leaves the
store entirely unchanged, so the cell is not enqueued in the pending set and
no listener can fire on account of that recomputation.  Concretely, a forced
recomputation of `double` with an unchanged `count` re-runs the read function
but keeps the state object and the store intact. -/
theorem C5_reference_stability :
    (∀ (σ : Store) (a : AtomId) (v : Nat)
       (nd : Option (List (AtomId × Option Nat))) (p : AtomState),
       getAtomState σ a = some p → p.v = v →
       setAtomValue σ a v nd = (p, σ)) ∧
    forcedRecomputeStable = true := by
  constructor
  · intro σ a v nd p hp hv
    simp [setAtomValue, hp, isEqualAtomValue, hv]
  · decide

theorem C5_witness :
    getAtomState oneCellStore 0 = some { d := [(0, none)], v := 0 } ∧
    setAtomValue oneCellStore 0 0 none = ({ d := [(0, none)], v := 0 }, oneCellStore) :=
  ⟨by decide,
   C5_reference_stability.1 oneCellStore 0 0 none { d := [(0, none)], v := 0 }
     (by decide) rfl⟩

/-- C6: a plain `get` of a cell with a cached state returns the cached value
as-is — the read function is not re-run (empty event log), no dependency
freshness is re-checked, and the store is untouched; moreover subscribing
never creates cell state or runs a read function, so a cell's read function
does not run before its value is first requested through `get` (directly, or
indirectly during recomputation, which goes through the same code path). -/
theorem C6_plain_get_cached (env : AtomId → AtomDef) (fuel : Nat) (σ : Store)
    (a : AtomId) (st : AtomState) (hst : getAtomState σ a = some st) :
    readAtomState env (fuel + 1) σ a false = .ok (st, σ, []) ∧
    readAtom env (fuel + 1) σ a = .ok (st.v, σ, []) ∧
    (∀ li σ', subscribeAtom fuel σ a li = .ok σ' →
       σ'.atomStateMap = σ.atomStateMap) := by
  have h1 : readAtomState env (fuel + 1) σ a false = .ok (st, σ, []) := by
    simp [readAtomState, hst]
  refine ⟨h1, ?_, ?_⟩
  · simp [readAtom, h1]
  · intro li σ' h
    exact (subscribeAtom_atomStateMap fuel σ a li σ' h).1

theorem C6_witness :
    getAtomState oneCellStore 0 = some { d := [(0, none)], v := 0 } ∧
    readAtomState envCD 20 oneCellStore 0 false =
      .ok ({ d := [(0, none)], v := 0 }, oneCellStore, []) :=
  ⟨by decide, (C6_plain_get_cached envCD 19 oneCellStore 0 _ (by decide)).1⟩

/-- C8: during evaluation of a read function, a self-read returns the cached
value when a cached state exists (recording that state as the dependency
entry), else the declared initial value (recording the dependency as
unresolved), and raises the "no atom init" error exactly in the remaining
case — no cached state and no declared initial value; the error propagates
synchronously out of `readAtomState` to the external entry points `readAtom`
(`get`) and `writeAtom` (`set`). -/
theorem C8_no_initial_value (env : AtomId → AtomDef) (fuel : Nat) (σ : Store)
    (self : AtomId) (k : Nat → ReadExpr) (nd : List (AtomId × Option Nat)) :
    (∀ st, getAtomState σ self = some st →
       runRead env (fuel + 1) σ self (.get self k) nd =
         runRead env fuel σ self (k st.v) (mapSet nd self (some st.v))) ∧
    (∀ i, getAtomState σ self = none → (env self).init = some i →
       runRead env (fuel + 1) σ self (.get self k) nd =
         runRead env fuel σ self (k i) (mapSet nd self none)) ∧
    (getAtomState σ self = none → hasInitialValue env self = false →
       runRead env (fuel + 1) σ self (.get self k) nd = .error .noAtomInit) ∧
    (∀ e, readAtomState env fuel σ self false = .error e →
       readAtom env fuel σ self = .error e) ∧
    (∀ e leff args, writeAtomState env fuel σ self args = .error e →
       writeAtom env leff fuel σ self args = .error e) := by
  refine ⟨?_, ?_, ?_, ?_, ?_⟩
  · intro st hst
    simp [runRead, hst]
  · intro i hst hi
    simp [runRead, hst, hi]
  · intro hst hinit
    unfold hasInitialValue at hinit
    cases hi : (env self).init with
    | none => simp [runRead, hst, hi]
    | some i => rw [hi] at hinit; simp at hinit
  · intro e h
    simp [readAtom, h]
  · intro e leff args h
    simp [writeAtom, h]

theorem C8_witness :
    getAtomState emptyStore 0 = none ∧
    hasInitialValue envBad 0 = false ∧
    runRead envBad 5 emptyStore 0 (.get 0 .ret) [] = .error .noAtomInit :=
  ⟨by decide, by decide,
   (C8_no_initial_value envBad 4 emptyStore 0 .ret []).2.2.1 (by decide) (by decide)⟩

/-- C9: a plain `get` is not effect-free on store state: installing a state
through `setAtomState` (the single point where a computing `get` records a
new state) always leaves the cell in the pending set, and only a top-level
`set` drains that set — so a later, unrelated `set` can fire listeners for a
cell whose state changed during an earlier `get`.  Concretely, after
subscribing to cell 1 and then merely `get`ting it, a `set` of the unrelated
cell 0 fires cell 1's listener. -/
theorem C9_get_is_not_effect_free :
    (∀ (σ : Store) (a : AtomId) (s : AtomState),
       a ∈ (setAtomState σ a s).pendingMap.map (·.1)) ∧
    frameRun = .ok [100] :=
  ⟨setAtomState_pending_mem, by decide⟩

/-- C10: the dependents sets stored in mount records are never modified by
recomputation — a `readAtomState` (plain or forced) and the whole
depth-first forced-recomputation walk of write propagation return the mount
table exactly as they found it, even when the recomputation records a
different dependency set in the cell's new cached state; only
`mountAtom`/`unmountAtom` (subscribe/unsubscribe time) touch mount records. -/
theorem C10_recompute_never_touches_mounts (env : AtomId → AtomDef) :
    (∀ fuel σ a force st σ' ev,
       readAtomState env fuel σ a force = .ok (st, σ', ev) →
       σ'.mountedMap = σ.mountedMap) ∧
    (∀ fuel σ a σ' ev,
       recomputeDependents env fuel σ a = .ok (σ', ev) →
       σ'.mountedMap = σ.mountedMap) :=
  ⟨fun fuel _ _ _ _ _ _ h => readAtomState_mountedMap env fuel _ _ _ _ _ _ h,
   fun fuel _ _ _ _ h => recomputeDependents_mountedMap env fuel _ _ _ _ h⟩

theorem C10_witness :
    readAtomState envCD 20 oneCellStore 0 true =
      .ok ({ d := [(0, none)], v := 0 }, oneCellStore, [Ev.readRun 0]) ∧
    oneCellStore.mountedMap = oneCellStore.mountedMap :=
  ⟨by decide,
   (C10_recompute_never_touches_mounts envCD).1 20 oneCellStore 0 true
     { d := [(0, none)], v := 0 } oneCellStore [Ev.readRun 0] (by decide)⟩

/-- C7: after a top-level write, `flushPending` drains the pending set in
rounds until it is empty: a round snapshots the entries pending at its
start, clears the map, and processes every snapshot entry (listener effects
may re-populate the map, which a later round picks up).  For one entry, all
listeners in the cell's mount record fire iff the cell has a mount record
and its current state differs under reference equality from the recorded
pre-transaction state — which is the state the cell had at its first change
within the transaction, since `setAtomState` preserves an existing pending
entry and records the previous state only on the first change. -/
theorem C7_flush_rounds (leff : Nat → Store → Store) (fuel : Nat) (σ : Store) :
    (σ.pendingMap = [] → flushPending leff (fuel + 1) σ = .ok (σ, [])) ∧
    (σ.pendingMap ≠ [] →
      flushPending leff (fuel + 1) σ =
        (match flushPending leff fuel
            (flushRound leff σ.pendingMap
              { atomStateMap := σ.atomStateMap
              , mountedMap := σ.mountedMap, pendingMap := [] }).1 with
         | .error e => .error e
         | .ok (σ'', fired') =>
             .ok (σ'',
               (flushRound leff σ.pendingMap
                 { atomStateMap := σ.atomStateMap
                 , mountedMap := σ.mountedMap, pendingMap := [] }).2 ++ fired'))) ∧
    (∀ a prev rest m st, mapGet σ.mountedMap a = some m →
       getAtomState σ a = some st →
       (∀ p, prev = some p → isEqualAtomValue p st = false) →
       flushRound leff ((a, prev) :: rest) σ =
         ((flushRound leff rest (fireListeners leff m.l σ)).1,
          m.l ++ (flushRound leff rest (fireListeners leff m.l σ)).2)) ∧
    (∀ a rest p st, getAtomState σ a = some st →
       isEqualAtomValue p st = true →
       flushRound leff ((a, some p) :: rest) σ = flushRound leff rest σ) ∧
    (∀ a prev rest, mapGet σ.mountedMap a = none →
       flushRound leff ((a, prev) :: rest) σ = flushRound leff rest σ) ∧
    (∀ a s, mapHas σ.pendingMap a = true →
       (setAtomState σ a s).pendingMap = σ.pendingMap) ∧
    (∀ a s, mapHas σ.pendingMap a = false →
       (setAtomState σ a s).pendingMap = σ.pendingMap ++ [(a, getAtomState σ a)]) := by
  refine ⟨?_, ?_, ?_, ?_, ?_, ?_, ?_⟩
  · intro h
    simp [flushPending, h]
  · intro h
    simp only [flushPending, if_neg h]
  · intro a prev rest m st hm hst hneq
    cases prev with
    | none => simp [flushRound, hm, hst]
    | some p => simp [flushRound, hm, hst, hneq p rfl]
  · intro a rest p st hst heq
    simp only [flushRound]
    cases hm : mapGet σ.mountedMap a with
    | none => simp [hm, hst]
    | some m => simp [hm, hst, heq]
  · intro a prev rest hm
    simp [flushRound, hm]
  · intro a s h
    simp [setAtomState, h]
  · intro a s h
    simp [setAtomState, getAtomState, h]

theorem C7_witness :
    emptyStore.pendingMap = [] ∧
    flushPending noEff 1 emptyStore = .ok (emptyStore, []) :=
  ⟨rfl, (C7_flush_rounds noEff 0 emptyStore).1 rfl⟩

/-- C4 counterexample: in the literal scenario — subscribe a listener
(id 100) to `double`, then `set(count, 5)` — the final `get(double)` does
return 10 but the listener fires zero times, not exactly once: subscribing
the never-read `double` mounts it with no recorded dependencies, so `count`
is never mounted, the write recomputes nothing, and the flush finds no
mounted cell whose listeners should fire. -/
theorem C4_counterexample :
    cdLiteralRun = .ok ([], 10) ∧ ([] : List Nat).length ≠ 1 :=
  ⟨by decide, by decide⟩

/-- C4 (amended): with `double` first read via `get` (so its dependency on
`count` is in its cached state) and then subscribed, `set(count, 5)` makes
`get(double)` return 10 and fires the `double` listener exactly once. -/
theorem C4_amended_scenario : cdReadFirstRun = .ok ([100], 10) := by decide

/-- C2 counterexample: read `double`, subscribe to it (which mounts `count`
with a dependent edge), then unsubscribe.  The mount table still contains
`count` — with empty listener and dependents sets — although no cell
anywhere holds a listener, so "mounted iff reachable from some
mounted-with-listeners cell" fails after unsubscribing the last listener of
the chain. -/
theorem C2_counterexample :
    unsubRun.map (fun σ => σ.mountedMap) =
      .ok [(0, { l := [], t := [] })] := by decide

/-- C1 counterexample: in the conditional-dependency scenario, after
`set`ting cell 1 to 99 returns, cell 2 is currently mounted (with a
listener), its current cached state records cell 1 as a dependency, and
cell 1's state is 99 — yet cell 2's cached value is still 10 while re-running
its read function yields 99.  A mounted cell transitively dependent (via
current cached dependencies) on the written cell does not reflect the
post-write value, because the dependency was acquired after mounting and is
missing from the mount table's dependents edges. -/
theorem C1_counterexample :
    flagRun.map (fun σ =>
        ((mapGet σ.mountedMap 2).isSome, decide (1 ∈ depKeys σ 2))) =
      .ok (true, true) ∧
    flagRun.map (fun σ => (getAtomState σ 1, getAtomState σ 2)) =
      .ok (some { d := [], v := 99 },
           some { d := [(0, some 1), (1, some 10)], v := 10 }) ∧
    flagRun.map (fun σ => (readAtomState envFlag 20 σ 2 true).map (fun x => x.1.v)) =
      .ok (.ok 99) :=
  ⟨by decide, by decide, by decide⟩

/-- C3: during `set` of a primitive cell, the setter handed to its write
function — invoked on the very cell being written at the top level — installs
into the state table the applied value: the updater applied to the cell's
current value when the argument is an updater function, the argument itself
otherwise; and it triggers dependent recomputation for that cell exactly when
the installed value differs from the previous one under reference
equality. -/
theorem C3_top_level_setter (env : AtomId → AtomDef) (p : AtomId) (i : Nat)
    (hp : env p = primitiveAtom p i) (m : Nat) (σ : Store) (st : AtomState)
    (hst : getAtomState σ p = some st) :
    (∀ v : Nat,
      writeAtomState env (m + 3) σ p [.value v] =
        if st.v = v then .ok (none, σ, [])
        else
          match recomputeDependents env (m + 1)
              (setAtomState σ p { d := [], v := v }) p with
          | .error e => .error e
          | .ok (σ₂, ev) => .ok (none, σ₂, ev ++ [])) ∧
    (∀ f : Nat → Nat,
      writeAtomState env (m + 4) σ p [.updater f] =
        if st.v = f st.v then .ok (none, σ, [])
        else
          match recomputeDependents env (m + 1)
              (setAtomState σ p { d := [], v := f st.v }) p with
          | .error e => .error e
          | .ok (σ₂, ev) => .ok (none, σ₂, ev ++ [])) := by
  have hset : ∀ fuel v, runWrite env (fuel + 2) σ p (.set p [.value v] .ret) =
      if st.v = v then .ok (none, σ, [])
      else
        match recomputeDependents env (fuel + 1)
            (setAtomState σ p { d := [], v := v }) p with
        | .error e => .error e
        | .ok (σ₂, ev) => .ok (none, σ₂, ev ++ []) := by
    intro fuel v
    by_cases hv : st.v = v
    · simp [runWrite, setAtomValue, hst, isEqualAtomValue, hv]
    · simp only [runWrite, setAtomValue, hst, isEqualAtomValue, if_pos rfl]
      simp [hv, runWrite]
  constructor
  · intro v
    have hw : writeAtomState env (m + 3) σ p [.value v] =
        runWrite env (m + 2) σ p (.set p [.value v] .ret) := by
      simp [writeAtomState, hp, primitiveAtom]
    rw [hw, hset m v]
  · intro f
    have hw : writeAtomState env (m + 4) σ p [.updater f] =
        runWrite env (m + 3) σ p (.get p (fun cur => .set p [.value (f cur)] .ret)) := by
      simp [writeAtomState, hp, primitiveAtom]
    have hread : readAtomState env (m + 2) σ p false = .ok (st, σ, []) := by
      simp [readAtomState, hst]
    have hone : runWrite env (m + 3) σ p
        (.get p (fun cur => .set p [.value (f cur)] .ret)) =
        (match readAtomState env (m + 2) σ p false with
         | .error e' => .error e'
         | .ok (ast, σ', ev₁) =>
             match runWrite env (m + 2) σ' p (.set p [.value (f ast.v)] .ret) with
             | .error e' => .error e'
             | .ok (r, σ'', ev₂) => .ok (r, σ'', ev₁ ++ ev₂)) := rfl
    rw [hw, hone, hread]
    show (match runWrite env (m + 2) σ p (.set p [.value (f st.v)] .ret) with
          | .error e' => (.error e' : Except Err (Option Nat × Store × List Ev))
          | .ok (r, σ'', ev₂) => .ok (r, σ'', [] ++ ev₂)) = _
    rw [hset m (f st.v)]
    cases hrec : (if st.v = f st.v then
        (Except.ok (none, σ, []) : Except Err (Option Nat × Store × List Ev))
      else
        match recomputeDependents env (m + 1)
            (setAtomState σ p { d := [], v := f st.v }) p with
        | .error e => .error e
        | .ok (σ₂, ev) => .ok (none, σ₂, ev ++ [])) with
    | error e => simp
    | ok out => simp

theorem mapGet_mapSet_self {β : Type} : ∀ (m : List (AtomId × β)) (k : AtomId) (v : β),
    mapGet (mapSet m k v) k = some v := by
  intro m k v
  induction m with
  | nil => simp [mapSet, mapGet]
  | cons p rest ih =>
      obtain ⟨k', v'⟩ := p
      by_cases h : k' = k
      · simp [mapSet, mapGet, h]
      · simp [mapSet, mapGet, h, ih]

theorem mapGet_mapSet_ne {β : Type} : ∀ (m : List (AtomId × β)) (k k' : AtomId) (v : β),
    k' ≠ k → mapGet (mapSet m k v) k' = mapGet m k' := by
  intro m k k' v hne
  have hne' : k ≠ k' := fun hc => hne hc.symm
  induction m with
  | nil => simp [mapSet, mapGet, hne']
  | cons p rest ih =>
      obtain ⟨k'', v''⟩ := p
      by_cases h : k'' = k
      · simp [mapSet, mapGet, h, hne']
      · simp [mapSet, mapGet, h, ih]

theorem mapGet_mapDelete_ne {β : Type} : ∀ (m : List (AtomId × β)) (k k' : AtomId),
    k' ≠ k → mapGet (mapDelete m k) k' = mapGet m k' := by
  intro m k k' hne
  induction m with
  | nil => simp [mapDelete, mapGet]
  | cons p rest ih =>
      obtain ⟨k'', v''⟩ := p
      by_cases h : k'' = k
      · subst h
        simp [mapDelete, mapGet, hne, Ne.symm hne]
      · simp [mapDelete, mapGet, h, ih]

theorem mapGet_none_of_not_mem {β : Type} : ∀ (m : List (AtomId × β)) (k : AtomId),
    k ∉ m.map (·.1) → mapGet m k = none := by
  intro m k h
  cases hg : mapGet m k with
  | none => rfl
  | some v => exact absurd (mapGet_mem_keys m k v hg) h

theorem mapGet_mapDelete_self {β : Type} : ∀ (m : List (AtomId × β)) (k : AtomId),
    (m.map (·.1)).Nodup → mapGet (mapDelete m k) k = none := by
  intro m k hnd
  induction m with
  | nil => simp [mapDelete, mapGet]
  | cons p rest ih =>
      obtain ⟨k', v'⟩ := p
      simp only [List.map_cons, List.nodup_cons] at hnd
      by_cases h : k' = k
      · subst h
        simp only [mapDelete, if_pos rfl]
        exact mapGet_none_of_not_mem rest k' hnd.1
      · simp [mapDelete, mapGet, h, ih hnd.2]

/-! ### The unsubscribe cleanup fold, pointwise -/

theorem unmountStep_preserves (a : AtomId) (acc : Store) (p : AtomId × Option Nat) :
    (unmountStep a acc p).atomStateMap = acc.atomStateMap ∧
    (unmountStep a acc p).pendingMap = acc.pendingMap := by
  unfold unmountStep
  split
  · exact ⟨rfl, rfl⟩
  · split
    · split
      · exact ⟨rfl, rfl⟩
      · exact ⟨rfl, rfl⟩
    · exact ⟨rfl, rfl⟩

theorem unmountStep_mounted_ne (a : AtomId) (acc : Store) (p : AtomId × Option Nat)
    (b : AtomId) (hb : b ≠ p.1) :
    mapGet (unmountStep a acc p).mountedMap b = mapGet acc.mountedMap b := by
  unfold unmountStep
  split
  · rfl
  · split
    · split
      · exact mapGet_mapSet_ne _ _ _ _ hb
      · rfl
    · rfl

theorem unmountFold_preserves (a : AtomId) : ∀ (l : List (AtomId × Option Nat)) (acc : Store),
    (l.foldl (unmountStep a) acc).atomStateMap = acc.atomStateMap ∧
    (l.foldl (unmountStep a) acc).pendingMap = acc.pendingMap := by
  intro l
  induction l with
  | nil => intro acc; exact ⟨rfl, rfl⟩
  | cons p rest ih =>
      intro acc
      simp only [List.foldl_cons]
      exact ⟨(ih _).1.trans (unmountStep_preserves a acc p).1,
             (ih _).2.trans (unmountStep_preserves a acc p).2⟩

theorem unmountFold_not_mem (a : AtomId) : ∀ (l : List (AtomId × Option Nat)) (acc : Store)
    (b : AtomId), b ∉ l.map (·.1) →
    mapGet (l.foldl (unmountStep a) acc).mountedMap b = mapGet acc.mountedMap b := by
  intro l
  induction l with
  | nil => intro acc b _; rfl
  | cons p rest ih =>
      intro acc b hb
      simp only [List.map_cons, List.mem_cons, not_or] at hb
      simp only [List.foldl_cons]
      rw [ih _ b hb.2, unmountStep_mounted_ne a acc p b hb.1]

theorem unmountFold_self (a : AtomId) : ∀ (l : List (AtomId × Option Nat)) (acc : Store),
    mapGet acc.mountedMap a = none →
    mapGet (l.foldl (unmountStep a) acc).mountedMap a = none := by
  intro l
  induction l with
  | nil => intro acc h; exact h
  | cons p rest ih =>
      intro acc h
      simp only [List.foldl_cons]
      refine ih _ ?_
      by_cases hp : p.1 = a
      · unfold unmountStep
        rw [if_pos hp]
        exact h
      · rw [unmountStep_mounted_ne a acc p a (fun hc => hp hc.symm)]
        exact h

theorem unmountFold_spec (a : AtomId) : ∀ (l : List (AtomId × Option Nat)) (acc : Store)
    (b : AtomId), b ≠ a → (l.map (·.1)).Nodup → b ∈ l.map (·.1) →
    mapGet (l.foldl (unmountStep a) acc).mountedMap b =
      (match mapGet acc.mountedMap b with
       | none => none
       | some m => if a ∈ m.t then some { l := m.l, t := setDelete m.t a } else some m) := by
  intro l
  induction l with
  | nil => intro acc b _ _ hb; simp at hb
  | cons p rest ih =>
      intro acc b hba hnd hb
      obtain ⟨pk, pv⟩ := p
      simp only [List.map_cons, List.nodup_cons] at hnd
      simp only [List.foldl_cons]
      by_cases hbp : b = pk
      · subst hbp
        rw [unmountFold_not_mem a rest _ b hnd.1]
        simp only [unmountStep]
        rw [if_neg hba]
        cases hm : mapGet acc.mountedMap b with
        | none => simp [hm]
        | some m =>
            by_cases ht : a ∈ m.t
            · simp only [hm, if_pos ht]
              exact mapGet_mapSet_self _ _ _
            · simp [hm, ht]
      · have hbrest : b ∈ rest.map (·.1) := by
          simp only [List.map_cons, List.mem_cons] at hb
          exact hb.resolve_left hbp
        rw [ih _ b hba hnd.2 hbrest,
            unmountStep_mounted_ne a acc (pk, pv) b hbp]

/-- C2 (amended): unsubscribing removes exactly the unsubscribed cell's own
mount record, and removes that cell from the dependents set of each cell
recorded as a dependency in its current cached state; every other cell's
mount record survives (with at most that one dependents-set edge deleted) —
in particular, cells that lose their last path to a listener are NOT removed
from the mount table. -/
theorem C2_amended_unmount (σ : Store) (a : AtomId)
    (hm : (σ.mountedMap.map (·.1)).Nodup) (hd : (depKeys σ a).Nodup) :
    mapGet (unmountAtom σ a).mountedMap a = none ∧
    (unmountAtom σ a).atomStateMap = σ.atomStateMap ∧
    (unmountAtom σ a).pendingMap = σ.pendingMap ∧
    (∀ b, b ≠ a →
      mapGet (unmountAtom σ a).mountedMap b =
        (match mapGet σ.mountedMap b with
         | none => none
         | some m =>
             if b ∈ depKeys σ a ∧ a ∈ m.t then
               some { l := m.l, t := setDelete m.t a }
             else some m)) := by
  have hdel : mapGet (mapDelete σ.mountedMap a) a = none :=
    mapGet_mapDelete_self _ _ hm
  unfold unmountAtom
  cases hst : getAtomState σ a with
  | none =>
      refine ⟨hdel, rfl, rfl, ?_⟩
      intro b hb
      have hdk : depKeys σ a = [] := by simp [depKeys, hst]
      rw [mapGet_mapDelete_ne _ _ _ hb]
      cases hg : mapGet σ.mountedMap b with
      | none => simp
      | some m => simp [hdk]
  | some st =>
      have hdk : depKeys σ a = st.d.map (·.1) := by simp [depKeys, hst]
      refine ⟨?_, ?_, ?_, ?_⟩
      · exact unmountFold_self a st.d _ hdel
      · exact (unmountFold_preserves a st.d _).1
      · exact (unmountFold_preserves a st.d _).2
      · intro b hb
        rw [hdk] at hd
        by_cases hbd : b ∈ st.d.map (·.1)
        · rw [unmountFold_spec a st.d _ b hb hd hbd,
              mapGet_mapDelete_ne _ _ _ hb]
          cases hg : mapGet σ.mountedMap b with
          | none => simp
          | some m =>
              by_cases ht : a ∈ m.t
              · simp [hdk, hbd, ht]
              · simp [hdk, hbd, ht]
        · rw [unmountFold_not_mem a st.d _ b hbd,
              mapGet_mapDelete_ne _ _ _ hb]
          cases hg : mapGet σ.mountedMap b with
          | none => simp
          | some m => simp [hdk, hbd]

/-- A two-cell store used to instantiate the unmount characterization:
cell 1 (with a listener) recorded cell 0 as its dependency; cell 0 carries
the dependent edge back to cell 1. -/
def unsubWitnessStore : Store :=
  { atomStateMap := [(1, { d := [(0, some 0)], v := 0 })]
  , mountedMap := [(0, { l := [], t := [1] }), (1, { l := [100], t := [] })]
  , pendingMap := [] }

theorem C2_witness :
    (unsubWitnessStore.mountedMap.map (·.1)).Nodup ∧
    (depKeys unsubWitnessStore 1).Nodup ∧
    mapGet (unmountAtom unsubWitnessStore 1).mountedMap 1 = none ∧
    mapGet (unmountAtom unsubWitnessStore 1).mountedMap 0 =
      some { l := [], t := [] } :=
  ⟨by decide, by decide,
   (C2_amended_unmount unsubWitnessStore 1 (by decide) (by decide)).1,
   ((C2_amended_unmount unsubWitnessStore 1 (by decide) (by decide)).2.2.2 0
     (by decide)).trans (by decide)⟩

theorem C3_witness :
    envCD 0 = primitiveAtom 0 0 ∧
    getAtomState oneCellStore 0 = some { d := [(0, none)], v := 0 } ∧
    writeAtomState envCD 3 oneCellStore 0 [.value 0] = .ok (none, oneCellStore, []) := by
  refine ⟨rfl, by decide, ?_⟩
  have h := (C3_top_level_setter envCD 0 0 rfl 0 oneCellStore
    { d := [(0, none)], v := 0 } (by decide)).1 0
  simpa using h

/-! ### Reachability through the mount table's dependents edges -/

/-- Reachability (in at least one edge) along a dependents-edge function
`T` (`T a` lists the dependents recorded for `a`). -/
inductive MReach (T : AtomId → List AtomId) : AtomId → AtomId → Prop
  | head {a x : AtomId} : x ∈ T a → MReach T a x
  | step {a y x : AtomId} : y ∈ T a → MReach T y x → MReach T a x

/-- The cells the depth-first walk `recomputeList l parent` force-recomputes:
a list member other than the current parent, or, recursively, a cell forced
in the sub-walk rooted at a member. -/
inductive ForcedIn (T : AtomId → List AtomId) :
    AtomId → List AtomId → AtomId → Prop
  | here {p : AtomId} {l : List AtomId} {x : AtomId} :
      x ∈ l → x ≠ p → ForcedIn T p l x
  | there {p : AtomId} {l : List AtomId} {d x : AtomId} :
      d ∈ l → ForcedIn T d (T d) x → ForcedIn T p l x

/-- A path witness: intermediate nodes between `a` and `x`. -/
def TPath (T : AtomId → List AtomId) : AtomId → List AtomId → AtomId → Prop
  | a, [], x => x ∈ T a
  | a, y :: l, x => y ∈ T a ∧ TPath T y l x

theorem ForcedIn_nil {T : AtomId → List AtomId} {p x : AtomId} :
    ¬ ForcedIn T p [] x := by
  intro h
  cases h with
  | here hmem _ => simp at hmem
  | there hmem _ => simp at hmem

theorem ForcedIn_cons {T : AtomId → List AtomId} {p d x : AtomId}
    {rest : List AtomId} :
    ForcedIn T p (d :: rest) x ↔
      (x = d ∧ x ≠ p) ∨ ForcedIn T d (T d) x ∨ ForcedIn T p rest x := by
  constructor
  · intro h
    cases h with
    | here hmem hne =>
        rcases List.mem_cons.mp hmem with h1 | h1
        · exact Or.inl ⟨h1, hne⟩
        · exact Or.inr (Or.inr (ForcedIn.here h1 hne))
    | there hmem hf =>
        rename_i d'
        rcases List.mem_cons.mp hmem with h1 | h1
        · subst h1
          exact Or.inr (Or.inl hf)
        · exact Or.inr (Or.inr (ForcedIn.there h1 hf))
  · rintro (⟨rfl, hne⟩ | hf | hf)
    · exact ForcedIn.here (List.mem_cons_self _ _) hne
    · exact ForcedIn.there (List.mem_cons_self _ _) hf
    · cases hf with
      | here hmem hne => exact ForcedIn.here (List.mem_cons_of_mem _ hmem) hne
      | there hmem hsub => exact ForcedIn.there (List.mem_cons_of_mem _ hmem) hsub

theorem ForcedIn_to_MReach {T : AtomId → List AtomId} :
    ∀ {p x : AtomId} {l : List AtomId}, ForcedIn T p l x →
      (∀ z, z ∈ l → z ∈ T p) → MReach T p x := by
  intro p x l h
  induction h with
  | here hmem hne =>
      intro hsub
      exact MReach.head (hsub _ hmem)
  | there hmem hsub ih =>
      intro hl
      exact MReach.step (hl _ hmem) (ih (fun z hz => hz))

theorem MReach_TPath {T : AtomId → List AtomId} :
    ∀ {a x : AtomId}, MReach T a x → ∃ l, TPath T a l x := by
  intro a x h
  induction h with
  | head hmem => exact ⟨[], hmem⟩
  | step hmem _ ih =>
      obtain ⟨l, hl⟩ := ih
      exact ⟨_ :: l, ⟨hmem, hl⟩⟩

theorem TPath_ForcedIn {T : AtomId → List AtomId} :
    ∀ (l : List AtomId) (a x : AtomId), TPath T a l x →
      ForcedIn T a (T a) x ∨ (x = a ∧ a ∈ T a) := by
  intro l
  induction l with
  | nil =>
      intro a x h
      by_cases hx : x = a
      · exact Or.inr ⟨hx, hx ▸ h⟩
      · exact Or.inl (ForcedIn.here h hx)
  | cons y l ih =>
      intro a x h
      obtain ⟨hy, hp⟩ := h
      rcases ih y x hp with hf | ⟨hxy, hyy⟩
      · exact Or.inl (ForcedIn.there hy hf)
      · subst hxy
        by_cases hx : x = a
        · exact Or.inr ⟨hx, hx ▸ hy⟩
        · exact Or.inl (ForcedIn.here hy hx)

/-- A self-edge in the mount table's dependents graph makes the depth-first
walk diverge: it can never return successfully. -/
theorem recomputeList_self_stuck (env : AtomId → AtomDef) : ∀ (fuel : Nat)
    (σ : Store) (l : List AtomId) (parent : AtomId),
    parent ∈ l → parent ∈ tOf σ parent →
    ∀ out, recomputeList env fuel σ l parent ≠ .ok out := by
  intro fuel
  induction fuel with
  | zero => intro σ l parent _ _ out h; simp [recomputeList] at h
  | succ fuel ih =>
      intro σ l parent hmem hself out h
      cases l with
      | nil => simp at hmem
      | cons d rest =>
          simp only [recomputeList] at h
          by_cases hd : d = parent
          · rw [if_pos hd] at h
            split at h
            · exact Except.noConfusion h
            · rename_i σ₂ evB heqB
              subst hd
              exact ih σ (tOf σ d) d hself hself _ heqB
          · rw [if_neg hd] at h
            split at h
            · exact Except.noConfusion h
            · rename_i st₁ σ₁ ev₁ heq₁
              split at h
              · exact Except.noConfusion h
              · rename_i σ₂ evB heqB
                split at h
                · exact Except.noConfusion h
                · rename_i σ₃ evC heqC
                  have hmem' : parent ∈ rest := by
                    rcases List.mem_cons.mp hmem with h1 | h1
                    · exact absurd h1.symm hd
                    · exact h1
                  have hm₂ : σ₂.mountedMap = σ.mountedMap :=
                    (recomputeList_mountedMap env _ _ _ _ _ _ heqB).trans
                      (readAtomState_mountedMap env _ _ _ _ _ _ _ heq₁)
                  have hself₂ : parent ∈ tOf σ₂ parent := by
                    rw [tOf_congr hm₂]
                    exact hself
                  exact ih σ₂ rest parent hmem' hself₂ _ heqC

/-- The characterization of one depth-first walk: on success the mount table
is untouched, the forced cells are exactly those described by `ForcedIn`
over the walk's starting mount table, and every forced cell had its read
function re-run. -/
theorem recomputeList_spec (env : AtomId → AtomDef) : ∀ (fuel : Nat) (σ : Store)
    (l : List AtomId) (parent : AtomId) (σ' : Store) (ev : List Ev),
    recomputeList env fuel σ l parent = .ok (σ', ev) →
    σ'.mountedMap = σ.mountedMap ∧
    (∀ x, Ev.forced x ∈ ev ↔ ForcedIn (tOf σ) parent l x) ∧
    (∀ x, Ev.forced x ∈ ev → Ev.readRun x ∈ ev) := by
  intro fuel
  induction fuel with
  | zero => intro σ l parent σ' ev h; simp [recomputeList] at h
  | succ fuel ih =>
      intro σ l parent σ' ev h
      cases l with
      | nil =>
          simp only [recomputeList] at h
          cases h
          refine ⟨rfl, ?_, ?_⟩
          · intro x
            constructor
            · intro hx; simp at hx
            · intro hf; exact absurd hf ForcedIn_nil
          · intro x hx; simp at hx
      | cons d rest =>
          simp only [recomputeList] at h
          by_cases hd : d = parent
          · rw [if_pos hd] at h
            subst hd
            split at h
            · exact Except.noConfusion h
            · rename_i σ₂ evB heqB
              split at h
              · exact Except.noConfusion h
              · rename_i σ₃ evC heqC
                cases h
                have hB := ih _ _ _ _ _ heqB
                have hC := ih _ _ _ _ _ heqC
                have hT₂ : tOf σ₂ = tOf σ := tOf_congr hB.1
                refine ⟨hC.1.trans hB.1, ?_, ?_⟩
                · intro x
                  have h1 := hB.2.1 x
                  have h2 := hC.2.1 x
                  rw [hT₂] at h2
                  rw [ForcedIn_cons]
                  simp only [List.mem_append]
                  constructor
                  · rintro (hx | hx)
                    · exact Or.inr (Or.inl (h1.mp hx))
                    · exact Or.inr (Or.inr (h2.mp hx))
                  · rintro (⟨hxd, hne⟩ | hf | hf)
                    · exact absurd hxd hne
                    · exact Or.inl (h1.mpr hf)
                    · exact Or.inr (h2.mpr hf)
                · intro x hx
                  simp only [List.mem_append] at hx ⊢
                  rcases hx with hx | hx
                  · exact Or.inl (hB.2.2 x hx)
                  · exact Or.inr (hC.2.2 x hx)
          · rw [if_neg hd] at h
            split at h
            · exact Except.noConfusion h
            · rename_i st₁ σ₁ ev₁ heq₁
              split at h
              · exact Except.noConfusion h
              · rename_i σ₂ evB heqB
                split at h
                · exact Except.noConfusion h
                · rename_i σ₃ evC heqC
                  cases h
                  have hm₁ : σ₁.mountedMap = σ.mountedMap :=
                    readAtomState_mountedMap env _ _ _ _ _ _ _ heq₁
                  have hnf₁ := readAtomState_no_forced env _ _ _ _ _ _ _ heq₁
                  have hrr₁ : Ev.readRun d ∈ ev₁ := by
                    obtain ⟨ev', hev'⟩ :=
                      readAtomState_forced_runs env _ _ _ _ _ _ heq₁
                    rw [hev']
                    exact List.mem_cons_self _ _
                  have hB := ih _ _ _ _ _ heqB
                  have hC := ih _ _ _ _ _ heqC
                  have hT₁ : tOf σ₁ = tOf σ := tOf_congr hm₁
                  have hT₂ : tOf σ₂ = tOf σ := (tOf_congr hB.1).trans hT₁
                  refine ⟨(hC.1.trans hB.1).trans hm₁, ?_, ?_⟩
                  · intro x
                    have h1 := hB.2.1 x
                    rw [hT₁] at h1
                    have h2 := hC.2.1 x
                    rw [hT₂] at h2
                    rw [ForcedIn_cons]
                    simp only [List.cons_append, List.mem_cons, List.mem_append]
                    constructor
                    · rintro (hx | hx | hx)
                      · have hxd : x = d := Ev.forced.inj hx
                        exact Or.inl ⟨hxd, fun hc => hd (hxd ▸ hc)⟩
                      · rcases hx with hx | hx
                        · exact absurd hx (hnf₁ x)
                        · exact Or.inr (Or.inl (h1.mp hx))
                      · exact Or.inr (Or.inr (h2.mp hx))
                    · rintro (⟨hxd, _⟩ | hf | hf)
                      · subst hxd
                        exact Or.inl rfl
                      · exact Or.inr (Or.inl (Or.inr (h1.mpr hf)))
                      · exact Or.inr (Or.inr (h2.mpr hf))
                  · intro x hx
                    simp only [List.cons_append, List.mem_cons,
                      List.mem_append] at hx ⊢
                    rcases hx with hx | hx | hx
                    · have hxd : x = d := Ev.forced.inj hx
                      subst hxd
                      exact Or.inr (Or.inl (Or.inl hrr₁))
                    · rcases hx with hx | hx
                      · exact absurd hx (hnf₁ x)
                      · exact Or.inr (Or.inl (Or.inr (hB.2.2 x hx)))
                    · exact Or.inr (Or.inr (hC.2.2 x hx))

/-- C1 (amended): after a primitive cell's value changes, dependent
recomputation force-recomputes (re-running the read function, the cache
ignored) exactly the cells reachable from the written cell through the mount
table's dependents edges, depth-first and regardless of whether each
recomputation changed a value, leaving the mount table itself untouched; a
currently mounted cell whose dependency on the written cell is recorded only
in its current cached state but not in the mount table's dependents edges is
not recomputed and may remain stale. -/
theorem C1_amended_propagation (env : AtomId → AtomDef) (fuel : Nat)
    (σ : Store) (a : AtomId) (σ' : Store) (ev : List Ev)
    (h : recomputeDependents env fuel σ a = .ok (σ', ev)) :
    (∀ x, Ev.forced x ∈ ev ↔ MReach (tOf σ) a x) ∧
    (∀ x, Ev.forced x ∈ ev → Ev.readRun x ∈ ev) ∧
    σ'.mountedMap = σ.mountedMap := by
  cases fuel with
  | zero => simp [recomputeDependents] at h
  | succ fuel =>
      have h' : recomputeList env fuel σ (tOf σ a) a = .ok (σ', ev) := h
      have hs := recomputeList_spec env fuel σ (tOf σ a) a σ' ev h'
      refine ⟨?_, hs.2.2, hs.1⟩
      intro x
      constructor
      · intro hx
        exact ForcedIn_to_MReach ((hs.2.1 x).mp hx) (fun z hz => hz)
      · intro hr
        obtain ⟨l, hl⟩ := MReach_TPath hr
        rcases TPath_ForcedIn l a x hl with hf | ⟨hxa, hself⟩
        · exact (hs.2.1 x).mpr hf
        · subst hxa
          exact absurd h'
            (recomputeList_self_stuck env fuel σ (tOf σ x) x hself hself _)

/-- A store with cell 0 (value 5) mounted, carrying a dependents edge to the
mounted cell 1 (a stale `double` with a listener). -/
def recomputeWitnessStore : Store :=
  { atomStateMap := [(0, { d := [(0, none)], v := 5 }), (1, { d := [(0, some 0)], v := 0 })]
  , mountedMap := [(0, { l := [], t := [1] }), (1, { l := [100], t := [] })]
  , pendingMap := [] }

theorem C1_witness :
    recomputeDependents envCD 10 recomputeWitnessStore 0 =
      .ok ({ atomStateMap := [(0, { d := [(0, none)], v := 5 }),
                             (1, { d := [(0, some 5)], v := 10 })]
           , mountedMap := [(0, { l := [], t := [1] }), (1, { l := [100], t := [] })]
           , pendingMap := [(1, some { d := [(0, some 0)], v := 0 })] },
           [Ev.forced 1, Ev.readRun 1]) ∧
    (Ev.forced 1 ∈ [Ev.forced 1, Ev.readRun 1] ↔
      MReach (tOf recomputeWitnessStore) 0 1) := by
  have hrun : recomputeDependents envCD 10 recomputeWitnessStore 0 =
      .ok ({ atomStateMap := [(0, { d := [(0, none)], v := 5 }),
                             (1, { d := [(0, some 5)], v := 10 })]
           , mountedMap := [(0, { l := [], t := [1] }), (1, { l := [100], t := [] })]
           , pendingMap := [(1, some { d := [(0, some 0)], v := 0 })] },
           [Ev.forced 1, Ev.readRun 1]) := by decide
  exact ⟨hrun,
    (C1_amended_propagation envCD 10 recomputeWitnessStore 0 _ _ hrun).1 1⟩

end MiniJotai
